import Mathlib

/-!
Shallow embedding of the Intcode virtual machine from `src/intcode/src/lib.rs`
(Advent of Code 2019, Rust). Rust panics are modelled by `Except RunError`;
`usize` values are `Nat`; `i64` values are `Int`, with the wrapping casts
(`as usize`, `as i64`) and release-mode wrapping arithmetic made explicit
modulo 2^64.
-/

/-- Errors modelling the panics of the Rust interpreter. -/
inductive RunError where
  /-- Indexing into an empty opcode vector: `opcodes.len() - 1` underflows
      (debug) or the subsequent index is out of bounds (release). -/
  | emptyMem
  /-- `Instruction::from_opcode` on an unknown opcode. -/
  | badOpcode (d : Int)
  /-- `ParamMode::from_digit` on a digit other than 0, 1, 2. -/
  | badMode (d : Int)
  /-- Input instruction with an empty input queue. -/
  | noInput
  /-- `self.next().unwrap()` after an Output when the pointer is past the end. -/
  | peekPastEnd
  /-- `resize(address + 1, _)` where `address + 1` overflows `usize`. -/
  | addrOverflow
  /-- Fuel exhaustion of the model (not a behaviour of the Rust code). -/
  | outOfFuel
deriving DecidableEq

/-- Reinterpret an `i64` value as `usize`, as Rust's `as usize` does. -/
def usizeOfInt (x : Int) : Nat := (x % 2 ^ 64).toNat

/-- Reinterpret a `usize` value as `i64`, as Rust's `as i64` does. -/
def i64OfUsize (n : Nat) : Int := if n < 2 ^ 63 then (n : Int) else (n : Int) - 2 ^ 64

/-- Wrap an integer into the `i64` range, modelling release-mode wrapping
arithmetic on `i64`. -/
def wrapI64 (x : Int) : Int := (x + 2 ^ 63) % 2 ^ 64 - 2 ^ 63

/-- `enum ParamMode`. -/
inductive ParamMode where
  | Position
  | Immediate
  | Relative
deriving DecidableEq

/-- `enum Instruction`. -/
inductive Instruction where
  | Add
  | Mul
  | Input
  | Output
  | JumpIfTrue
  | JumpIfFalse
  | LessThan
  | Equal
  | SetRelativeBase
  | Exit
deriving DecidableEq

/-- `Instruction::from_opcode`. -/
def Instruction.from_opcode (digit : Int) : Except RunError Instruction :=
  if digit = 1 then .ok .Add
  else if digit = 2 then .ok .Mul
  else if digit = 3 then .ok .Input
  else if digit = 4 then .ok .Output
  else if digit = 5 then .ok .JumpIfTrue
  else if digit = 6 then .ok .JumpIfFalse
  else if digit = 7 then .ok .LessThan
  else if digit = 8 then .ok .Equal
  else if digit = 9 then .ok .SetRelativeBase
  else if digit = 99 then .ok .Exit
  else .error (.badOpcode digit)

/-- `Instruction::size`. -/
def Instruction.size : Instruction → Nat
  | .Add => 4
  | .Mul => 4
  | .Input => 2
  | .Output => 2
  | .JumpIfTrue => 3
  | .JumpIfFalse => 3
  | .LessThan => 4
  | .Equal => 4
  | .SetRelativeBase => 2
  | .Exit => 1

/-- `Instruction::jumps`. -/
def Instruction.jumps : Instruction → Bool
  | .JumpIfTrue => true
  | .JumpIfFalse => true
  | _ => false

/-- The opcode digit denoting each instruction: the `match` arms of
`Instruction::from_opcode`, read backwards. Used to state the decode
claims. -/
def Instruction.opcode : Instruction → Int
  | .Add => 1
  | .Mul => 2
  | .Input => 3
  | .Output => 4
  | .JumpIfTrue => 5
  | .JumpIfFalse => 6
  | .LessThan => 7
  | .Equal => 8
  | .SetRelativeBase => 9
  | .Exit => 99

/-- The digit denoting each parameter mode: the `match` arms of
`ParamMode::from_digit`, read backwards. Used to state the decode claims. -/
def ParamMode.digit : ParamMode → Int
  | .Position => 0
  | .Immediate => 1
  | .Relative => 2

/-- `struct InstructionWithMode`. -/
structure InstructionWithMode where
  instruction : Instruction
  mode_one : ParamMode
  mode_two : ParamMode
  mode_three : ParamMode
deriving DecidableEq

/-- `ParamMode::from_digit`. -/
def ParamMode.from_digit (digit : Int) : Except RunError ParamMode :=
  if digit = 0 then .ok .Position
  else if digit = 1 then .ok .Immediate
  else if digit = 2 then .ok .Relative
  else .error (.badMode digit)

/-- `InstructionWithMode::from_intcode`. Rust evaluates the struct fields in
written order, and `%` / `/` on `i64` truncate toward zero (`tmod` / `tdiv`). -/
def InstructionWithMode.from_intcode (intcode : Int) : Except RunError InstructionWithMode :=
  match Instruction.from_opcode (intcode.tmod 100) with
  | .error e => .error e
  | .ok instruction =>
    match ParamMode.from_digit ((intcode.tdiv 100).tmod 10) with
    | .error e => .error e
    | .ok mode_one =>
      match ParamMode.from_digit ((intcode.tdiv 1000).tmod 10) with
      | .error e => .error e
      | .ok mode_two =>
        match ParamMode.from_digit (intcode.tdiv 10000) with
        | .error e => .error e
        | .ok mode_three => .ok ⟨instruction, mode_one, mode_two, mode_three⟩

/-- `InstructionWithMode::size`. -/
def InstructionWithMode.size (i : InstructionWithMode) : Nat := i.instruction.size

/-- `InstructionWithMode::jump_size`. -/
def InstructionWithMode.jump_size (i : InstructionWithMode) : Nat :=
  if i.instruction.jumps then 0 else i.size

/-- `enum ProgramState`. -/
inductive ProgramState where
  | Halt (value : Option Int)
  | Output (value : Int)
deriving DecidableEq

/-- `struct Program`. The `VecDeque` of inputs is a list whose head is the
front of the queue. -/
structure Program where
  opcodes : List Int
  pointer : Nat
  inputs : List Int
  relative_base : Nat
deriving DecidableEq

/-- `Program::new`. -/
def Program.new (opcodes : List Int) : Program :=
  { opcodes := opcodes, pointer := 0, inputs := [], relative_base := 0 }

/-- `Program::read`. The guard is `address > self.opcodes.len() - 1` on
`usize`: with an empty vector it panics (underflow in debug; wrap followed by
an out-of-bounds index in release), hence the `emptyMem` error. -/
def Program.read (p : Program) (address : Nat) : Except RunError Int :=
  if p.opcodes.length = 0 then .error .emptyMem
  else if address > p.opcodes.length - 1 then .ok 0
  else .ok (p.opcodes.getD address 0)

/-- `Program::set`: `resize(address + 1, 0)` zero-fills up to the new length,
then the cell at `address` is overwritten. With an empty vector the length
guard panics as in `read`; `address + 1` overflowing `usize` also panics. -/
def Program.set (p : Program) (address : Nat) (value : Int) : Except RunError Program :=
  if p.opcodes.length = 0 then .error .emptyMem
  else if address > p.opcodes.length - 1 then
    if 2 ^ 64 ≤ address + 1 then .error .addrOverflow
    else .ok { p with opcodes :=
      (p.opcodes ++ List.replicate (address + 1 - p.opcodes.length) 0).set address value }
  else .ok { p with opcodes := p.opcodes.set address value }

/-- `ParamMode::position`: resolve a parameter at `position` to a memory
address. The casts `as usize` (and `as i64` on the relative base) wrap. -/
def ParamMode.position (m : ParamMode) (position : Nat) (p : Program) : Except RunError Nat :=
  match m with
  | .Position =>
    match p.read position with
    | .error e => .error e
    | .ok v => .ok (usizeOfInt v)
  | .Immediate => .ok position
  | .Relative =>
    match p.read position with
    | .error e => .error e
    | .ok v => .ok (usizeOfInt (wrapI64 (i64OfUsize p.relative_base + v)))

/-- `ParamMode::value_at`. -/
def ParamMode.value_at (m : ParamMode) (position : Nat) (p : Program) : Except RunError Int :=
  match m.position position p with
  | .error e => .error e
  | .ok a => p.read a

/-- `Program::push_input`: `push_back` onto the input queue. -/
def Program.push_input (p : Program) (input : Int) : Program :=
  { p with inputs := p.inputs ++ [input] }

/-- `Program::next`: decode the instruction under the pointer, or `none` when
the pointer is at or past the end of memory. -/
def Program.next (p : Program) : Except RunError (Option InstructionWithMode) :=
  if p.pointer < p.opcodes.length then
    match p.read p.pointer with
    | .error e => .error e
    | .ok v =>
      match InstructionWithMode.from_intcode v with
      | .error e => .error e
      | .ok i => .ok (some i)
  else .ok none

/-- `Program::take_one_param`. -/
def Program.take_one_param (p : Program) (i : InstructionWithMode) : Except RunError Nat :=
  i.mode_one.position (p.pointer + 1) p

/-- `Program::take_two_params`. -/
def Program.take_two_params (p : Program) (i : InstructionWithMode) :
    Except RunError (Int × Int) :=
  match i.mode_one.value_at (p.pointer + 1) p with
  | .error e => .error e
  | .ok v1 =>
    match i.mode_two.value_at (p.pointer + 2) p with
    | .error e => .error e
    | .ok v2 => .ok (v1, v2)

/-- `Program::take_three_params`. -/
def Program.take_three_params (p : Program) (i : InstructionWithMode) :
    Except RunError (Int × Int × Nat) :=
  match i.mode_one.value_at (p.pointer + 1) p with
  | .error e => .error e
  | .ok v1 =>
    match i.mode_two.value_at (p.pointer + 2) p with
    | .error e => .error e
    | .ok v2 =>
      match i.mode_three.position (p.pointer + 3) p with
      | .error e => .error e
      | .ok a => .ok (v1, v2, a)

/-- `Program::run`, with explicit fuel bounding the number of loop
iterations. Fuel exhaustion yields `outOfFuel`; every other outcome is the
outcome of the Rust loop. Arithmetic (`+`, `*`, relative-base update) wraps
as release-mode `i64` arithmetic does. -/
def Program.runFuel : Nat → Program → Except RunError (ProgramState × Program)
  | 0, _ => .error .outOfFuel
  | fuel + 1, p =>
    match p.next with
    | .error e => .error e
    | .ok none => .ok (.Halt none, p)
    | .ok (some instruction) =>
      match instruction.instruction with
      | .Add =>
        match p.take_three_params instruction with
        | .error e => .error e
        | .ok (left, right, out) =>
          match p.set out (wrapI64 (left + right)) with
          | .error e => .error e
          | .ok q => Program.runFuel fuel { q with pointer := q.pointer + instruction.jump_size }
      | .Mul =>
        match p.take_three_params instruction with
        | .error e => .error e
        | .ok (left, right, out) =>
          match p.set out (wrapI64 (left * right)) with
          | .error e => .error e
          | .ok q => Program.runFuel fuel { q with pointer := q.pointer + instruction.jump_size }
      | .Input =>
        match p.take_one_param instruction with
        | .error e => .error e
        | .ok save_to =>
          match p.inputs with
          | [] => .error .noInput
          | value :: rest =>
            match Program.set { p with inputs := rest } save_to value with
            | .error e => .error e
            | .ok q => Program.runFuel fuel { q with pointer := q.pointer + instruction.jump_size }
      | .Output =>
        match instruction.mode_one.value_at (p.pointer + 1) p with
        | .error e => .error e
        | .ok value =>
          match Program.next { p with pointer := p.pointer + instruction.jump_size } with
          | .error e => .error e
          | .ok none => .error .peekPastEnd
          | .ok (some peeked) =>
            match peeked.instruction with
            | .Exit => .ok (.Halt (some value), { p with pointer := p.pointer + instruction.jump_size })
            | _ => .ok (.Output value, { p with pointer := p.pointer + instruction.jump_size })
      | .JumpIfTrue =>
        match p.take_two_params instruction with
        | .error e => .error e
        | .ok (condition, value) =>
          if condition ≠ 0 then
            Program.runFuel fuel { p with pointer := usizeOfInt value + instruction.jump_size }
          else
            Program.runFuel fuel { p with pointer := p.pointer + instruction.size + instruction.jump_size }
      | .JumpIfFalse =>
        match p.take_two_params instruction with
        | .error e => .error e
        | .ok (condition, value) =>
          if condition = 0 then
            Program.runFuel fuel { p with pointer := usizeOfInt value + instruction.jump_size }
          else
            Program.runFuel fuel { p with pointer := p.pointer + instruction.size + instruction.jump_size }
      | .LessThan =>
        match p.take_three_params instruction with
        | .error e => .error e
        | .ok (first, second, out) =>
          match p.set out (if first < second then 1 else 0) with
          | .error e => .error e
          | .ok q => Program.runFuel fuel { q with pointer := q.pointer + instruction.jump_size }
      | .Equal =>
        match p.take_three_params instruction with
        | .error e => .error e
        | .ok (first, second, out) =>
          match p.set out (if first = second then 1 else 0) with
          | .error e => .error e
          | .ok q => Program.runFuel fuel { q with pointer := q.pointer + instruction.jump_size }
      | .SetRelativeBase =>
        match instruction.mode_one.value_at (p.pointer + 1) p with
        | .error e => .error e
        | .ok value =>
          Program.runFuel fuel
            { p with
              relative_base := usizeOfInt (wrapI64 (i64OfUsize p.relative_base + value)),
              pointer := p.pointer + instruction.jump_size }
      | .Exit => .ok (.Halt none, p)

/-- `Program::run_capturing_output`: loop over `run`, collecting outputs. The
first fuel bounds each `run` call, the second the number of `run` calls. -/
def Program.runCapturing (innerFuel : Nat) : Nat → Program → Except RunError (List Int)
  | 0, _ => .error .outOfFuel
  | outerFuel + 1, p =>
    match Program.runFuel innerFuel p with
    | .error e => .error e
    | .ok (.Output value, q) =>
      match Program.runCapturing innerFuel outerFuel q with
      | .error e => .error e
      | .ok rest => .ok (value :: rest)
    | .ok (.Halt (some value), _) => .ok [value]
    | .ok (.Halt none, _) => .ok []

/-! ### Helper lemmas about memory access -/

theorem Program.read_lt (p : Program) (a : Nat) (h : a < p.opcodes.length) :
    p.read a = .ok (p.opcodes.getD a 0) := by
  have h0 : p.opcodes.length ≠ 0 := by omega
  have h1 : ¬ a > p.opcodes.length - 1 := by omega
  simp [Program.read, h0, h1]

theorem Program.read_ge (p : Program) (a : Nat) (h0 : p.opcodes.length ≠ 0)
    (h : p.opcodes.length ≤ a) : p.read a = .ok 0 := by
  have h1 : a > p.opcodes.length - 1 := by omega
  simp [Program.read, h0, h1]

theorem Program.next_of_decode (p : Program) (i : InstructionWithMode)
    (hlt : p.pointer < p.opcodes.length)
    (hdec : InstructionWithMode.from_intcode (p.opcodes.getD p.pointer 0) = .ok i) :
    p.next = .ok (some i) := by
  rw [Program.next, if_pos hlt, Program.read_lt p p.pointer hlt]
  dsimp only
  rw [hdec]

/-! ### Claim theorems -/

/-- C9: for every VM state and every integer `v`, `push_input v` appends
exactly the single value `v` to the back of the input queue and leaves the
memory, the instruction pointer and the relative base unchanged; being a
total function, it never fails. -/
theorem push_input_appends_and_frames (p : Program) (v : Int) :
    (p.push_input v).inputs = p.inputs ++ [v] ∧
    (p.push_input v).opcodes = p.opcodes ∧
    (p.push_input v).pointer = p.pointer ∧
    (p.push_input v).relative_base = p.relative_base :=
  ⟨rfl, rfl, rfl, rfl⟩

/-- C10: `run` is deterministic; two VMs with equal memory, pointer, relative
base and input queue yield equal `ExecutionResult`s and equal post-states
(`runFuel` returns result and post-state together), for every fuel bound. -/
theorem run_deterministic (fuel : Nat) (p q : Program)
    (h1 : p.opcodes = q.opcodes) (h2 : p.pointer = q.pointer)
    (h3 : p.inputs = q.inputs) (h4 : p.relative_base = q.relative_base) :
    Program.runFuel fuel p = Program.runFuel fuel q := by
  have hpq : p = q := by
    cases p
    cases q
    simp only at h1 h2 h3 h4
    simp [h1, h2, h3, h4]
  rw [hpq]

/-- Witness for C10 at a concrete pair of equal states. -/
theorem run_deterministic_witness :
    Program.runFuel 3 (Program.new [99]) =
      Program.runFuel 3 { opcodes := [99], pointer := 0, inputs := [], relative_base := 0 } :=
  run_deterministic 3 (Program.new [99])
    { opcodes := [99], pointer := 0, inputs := [], relative_base := 0 } rfl rfl rfl rfl

/-- Counterexample to C2: with memory of length 0, reading address 0 panics
(`opcodes.len() - 1` underflows in debug; the index is out of bounds in
release) instead of returning 0, and a write at address 0 likewise panics
instead of growing the memory. -/
theorem read_set_empty_memory_cex :
    (Program.new []).read 0 = .error .emptyMem ∧
    (Program.new []).set 0 5 = .error .emptyMem :=
  ⟨rfl, rfl⟩

/-- C2 (amended): for memory of length `n ≥ 1`, reading any address `a ≥ n`
returns 0 (and, `read` being a pure function, cannot grow the memory), and
writing `v` at any address `a ≥ n` with `a + 1 < 2^64` grows the memory to
length `a + 1`, zero-filling every newly created cell other than `a`, and
stores `v` at `a`. -/
theorem read_zero_set_grows (p : Program) (a : Nat) (v : Int)
    (hne : p.opcodes.length ≠ 0) (hge : p.opcodes.length ≤ a) (hov : a + 1 < 2 ^ 64) :
    p.read a = .ok 0 ∧
    p.set a v =
      .ok { p with opcodes := p.opcodes ++ List.replicate (a - p.opcodes.length) 0 ++ [v] } := by
  refine ⟨Program.read_ge p a hne hge, ?_⟩
  have h1 : a > p.opcodes.length - 1 := by omega
  have h2 : ¬ (2 ^ 64 ≤ a + 1) := by omega
  rw [Program.set, if_neg hne, if_pos h1, if_neg h2]
  have h3 : a + 1 - p.opcodes.length = (a - p.opcodes.length) + 1 := by omega
  rw [h3, List.replicate_succ', ← List.append_assoc,
    List.set_append_right _ _ (by simp; omega)]
  have h4 : a - (p.opcodes ++ List.replicate (a - p.opcodes.length) 0).length = 0 := by
    simp
    omega
  rw [h4]
  rfl

/-- Witness for C2 (amended): writing 7 at address 5 of a 2-cell memory grows
it to `[1, 2, 0, 0, 0, 7]`; reading address 5 beforehand returns 0. -/
theorem read_zero_set_grows_witness :
    (Program.new [1, 2]).read 5 = .ok 0 ∧
    (Program.new [1, 2]).set 5 7 =
      .ok { opcodes := [1, 2, 0, 0, 0, 7], pointer := 0, inputs := [], relative_base := 0 } := by
  have h := read_zero_set_grows (Program.new [1, 2]) 5 7 (by decide) (by decide) (by norm_num)
  exact h

/-- C3: the 16-cell quine program, run to completion from a fresh VM by the
output-capturing convenience call, outputs exactly its own 16 integers in
order. -/
theorem quine_outputs_itself :
    Program.runCapturing 100 40
      (Program.new [109, 1, 204, -1, 1001, 100, 1, 100, 1008, 100, 16, 101, 1006, 101, 0, 99]) =
    .ok [109, 1, 204, -1, 1001, 100, 1, 100, 1008, 100, 16, 101, 1006, 101, 0, 99] := rfl

/-- Counterexample to C5: the cell 120002 has ten-thousands decimal digit 2
and a valid opcode 2, so the claim predicts a successful decode with third
mode `Relative`; the decoder instead computes `120002 / 10000 = 12` (no
reduction mod 10) and fails with an invalid-mode panic. -/
theorem decode_ten_thousands_cex :
    InstructionWithMode.from_intcode 120002 = .error (.badMode 12) := rfl

/-- Counterexample to C7: the program `[1101, 1, 1, 0]` contains no Halt
opcode (99) at any point of its execution, yet `run` reports `Halt(None)`
after the single Add advances the pointer past the end of memory. -/
theorem run_halts_past_end_cex :
    Program.runFuel 3 (Program.new [1101, 1, 1, 0]) =
      .ok (.Halt none, { opcodes := [2, 1, 1, 0], pointer := 4, inputs := [], relative_base := 0 }) ∧
    (99 : Int) ∉ [(1101 : Int), 1, 1, 0] ∧ (99 : Int) ∉ [(2 : Int), 1, 1, 0] :=
  ⟨rfl, by decide, by decide⟩

/-- Counterexample to C8: in `[204, -1, 99]` the Output parameter resolves in
Relative mode to base-plus-offset `0 + (-1) = -1`, a negative address; the
claim predicts a fatal error, but the cast wraps to `2^64 - 1`, the read
yields 0, and the run completes normally with `Halt(Some(0))`. -/
theorem negative_relative_read_cex :
    Program.runFuel 3 (Program.new [204, -1, 99]) =
      .ok (.Halt (some 0), { opcodes := [204, -1, 99], pointer := 2, inputs := [], relative_base := 0 }) :=
  rfl

theorem Program.next_eq_none_iff (p : Program) (h : p.next = .ok none) :
    p.opcodes.length ≤ p.pointer := by
  by_contra hc
  push_neg at hc
  rw [Program.next, if_pos hc, Program.read_lt p p.pointer hc] at h
  dsimp only at h
  cases hfrom : InstructionWithMode.from_intcode (p.opcodes.getD p.pointer 0) <;>
    rw [hfrom] at h <;> simp at h

theorem Program.next_eq_some_inv (p : Program) (i : InstructionWithMode)
    (h : p.next = .ok (some i)) :
    p.pointer < p.opcodes.length ∧
    InstructionWithMode.from_intcode (p.opcodes.getD p.pointer 0) = .ok i := by
  by_cases hc : p.pointer < p.opcodes.length
  · refine ⟨hc, ?_⟩
    rw [Program.next, if_pos hc, Program.read_lt p p.pointer hc] at h
    dsimp only at h
    cases hfrom : InstructionWithMode.from_intcode (p.opcodes.getD p.pointer 0) <;>
      rw [hfrom] at h <;> simp_all
  · rw [Program.next, if_neg hc] at h
    simp at h

theorem Program.set_frame (p : Program) (a : Nat) (v : Int) (q : Program)
    (h : p.set a v = .ok q) :
    q.pointer = p.pointer ∧ q.inputs = p.inputs ∧ q.relative_base = p.relative_base := by
  rw [Program.set] at h
  split_ifs at h <;> simp_all <;> exact ⟨by rw [← h], by rw [← h], by rw [← h]⟩

theorem usizeOfInt_eq_toNat (t : Int) (h0 : 0 ≤ t) (h1 : t < 2 ^ 64) :
    usizeOfInt t = t.toNat := by
  unfold usizeOfInt
  omega

theorem usizeOfInt_wrapI64 (x : Int) : usizeOfInt (wrapI64 x) = usizeOfInt x := by
  unfold usizeOfInt wrapI64
  omega

theorem Instruction.from_opcode_ok (d : Int) (i : Instruction)
    (h : Instruction.from_opcode d = .ok i) : i.opcode = d := by
  rw [Instruction.from_opcode] at h
  repeat' split at h
  all_goals first
  | (injection h with h; subst h; simp only [Instruction.opcode]; omega)
  | injection h

theorem ParamMode.from_digit_ok (d : Int) (m : ParamMode)
    (h : ParamMode.from_digit d = .ok m) : m.digit = d := by
  rw [ParamMode.from_digit] at h
  repeat' split at h
  all_goals first
  | (injection h with h; subst h; simp only [ParamMode.digit]; omega)
  | injection h

theorem Instruction.from_opcode_invalid (d : Int)
    (h : d ∉ ([1, 2, 3, 4, 5, 6, 7, 8, 9, 99] : List Int)) :
    Instruction.from_opcode d = .error (.badOpcode d) := by
  simp only [List.mem_cons, List.not_mem_nil, or_false, not_or] at h
  rw [Instruction.from_opcode]
  repeat' split
  all_goals first | rfl | omega

/-- C1: when an Output instruction executes, the output value is resolved
with the first parameter's mode, the pointer advances by 2 (the instruction's
jump size), and the opcode at the new pointer is peeked without being
consumed: if it decodes to Halt the run returns `Halt(Some(value))`, and for
any other opcode the run returns `Output(value)`; either way the post-state
is the original VM with the pointer at the peeked position. -/
theorem output_step (fuel : Nat) (p : Program) (i peeked : InstructionWithMode) (v : Int)
    (hlt : p.pointer < p.opcodes.length)
    (hdec : InstructionWithMode.from_intcode (p.opcodes.getD p.pointer 0) = .ok i)
    (hout : i.instruction = .Output)
    (hval : i.mode_one.value_at (p.pointer + 1) p = .ok v)
    (hlt2 : p.pointer + 2 < p.opcodes.length)
    (hdec2 : InstructionWithMode.from_intcode (p.opcodes.getD (p.pointer + 2) 0) = .ok peeked) :
    Program.runFuel (fuel + 1) p =
      .ok (if peeked.instruction = .Exit then .Halt (some v) else .Output v,
        { p with pointer := p.pointer + 2 }) := by
  have hjs : i.jump_size = 2 := by
    rw [InstructionWithMode.jump_size, InstructionWithMode.size, hout]
    rfl
  have hnext2 : Program.next { p with pointer := p.pointer + 2 } = .ok (some peeked) :=
    Program.next_of_decode _ peeked hlt2 hdec2
  rw [Program.runFuel, Program.next_of_decode p i hlt hdec]
  dsimp only
  rw [hout]
  dsimp only
  rw [hval]
  dsimp only
  rw [hjs, hnext2]
  dsimp only
  cases peeked.instruction <;> rfl

/-- Witness for C1: in `[104, 7, 99]` the Output yields 7, the pointer moves
to 2, and the peeked opcode 99 makes the run return `Halt(Some(7))`. -/
theorem output_step_witness :
    Program.runFuel 5 (Program.new [104, 7, 99]) =
      .ok (.Halt (some 7),
        { opcodes := [104, 7, 99], pointer := 2, inputs := [], relative_base := 0 }) := by
  have h := output_step 4 (Program.new [104, 7, 99])
    ⟨.Output, .Immediate, .Position, .Position⟩ ⟨.Exit, .Position, .Position, .Position⟩ 7
    (by decide) rfl rfl rfl (by decide) rfl
  simpa [Program.new] using h

/-- C4: when an Input instruction executes, its write-target is resolved
first; an empty input queue is then a fatal error (no blocking), otherwise
the front value is popped, written to the target, and the pointer advances
by 2. `push_input` appends at the back, so successive inputs are consumed
in FIFO order. -/
theorem input_step (fuel : Nat) (p : Program) (i : InstructionWithMode) (save_to : Nat)
    (hlt : p.pointer < p.opcodes.length)
    (hdec : InstructionWithMode.from_intcode (p.opcodes.getD p.pointer 0) = .ok i)
    (hin : i.instruction = .Input)
    (hsave : p.take_one_param i = .ok save_to) :
    (p.inputs = [] → Program.runFuel (fuel + 1) p = .error .noInput) ∧
    (∀ v rest q, p.inputs = v :: rest →
      Program.set { p with inputs := rest } save_to v = .ok q →
      Program.runFuel (fuel + 1) p = Program.runFuel fuel { q with pointer := p.pointer + 2 }) ∧
    (∀ w, (p.push_input w).inputs = p.inputs ++ [w]) := by
  have hjs : i.jump_size = 2 := by
    rw [InstructionWithMode.jump_size, InstructionWithMode.size, hin]
    rfl
  refine ⟨?_, ?_, fun w => rfl⟩
  · intro hemp
    rw [Program.runFuel, Program.next_of_decode p i hlt hdec]
    dsimp only
    rw [hin]
    dsimp only
    rw [hsave]
    dsimp only
    rw [hemp]
  · intro v rest q hq hset
    rw [Program.runFuel, Program.next_of_decode p i hlt hdec]
    dsimp only
    rw [hin]
    dsimp only
    rw [hsave]
    dsimp only
    rw [hq]
    dsimp only
    rw [hset]
    dsimp only
    rw [hjs, (Program.set_frame _ _ _ _ hset).1]

/-- Witness for C4: with queue `[42, 7]`, the Input at the head of
`[3, 3, 99, 0]` pops 42 (the oldest value), writes it to address 3 and
advances the pointer to 2, leaving `[7]` queued. -/
theorem input_step_witness :
    Program.runFuel 5 { opcodes := [3, 3, 99, 0], pointer := 0, inputs := [42, 7], relative_base := 0 } =
      Program.runFuel 4 { opcodes := [3, 3, 99, 42], pointer := 2, inputs := [7], relative_base := 0 } := by
  have h := (input_step 4
    { opcodes := [3, 3, 99, 0], pointer := 0, inputs := [42, 7], relative_base := 0 }
    ⟨.Input, .Position, .Position, .Position⟩ 3 (by decide) rfl rfl rfl).2.1 42 [7]
    { opcodes := [3, 3, 99, 42], pointer := 0, inputs := [7], relative_base := 0 } rfl rfl
  simpa using h

/-- C6: a Jump-If-True with non-zero condition, or a Jump-If-False with zero
condition, sets the pointer exactly to the resolved target (the jump size 0
is what is added afterwards, so the fixed size 3 is not additionally added);
when the condition does not hold the pointer advances by exactly 3. -/
theorem jump_step (fuel : Nat) (p : Program) (i : InstructionWithMode) (c t : Int)
    (hlt : p.pointer < p.opcodes.length)
    (hdec : InstructionWithMode.from_intcode (p.opcodes.getD p.pointer 0) = .ok i)
    (hc : i.mode_one.value_at (p.pointer + 1) p = .ok c)
    (ht : i.mode_two.value_at (p.pointer + 2) p = .ok t) :
    (i.instruction = .JumpIfTrue →
      (c ≠ 0 → 0 ≤ t → t < 2 ^ 64 →
        Program.runFuel (fuel + 1) p = Program.runFuel fuel { p with pointer := t.toNat }) ∧
      (c = 0 →
        Program.runFuel (fuel + 1) p = Program.runFuel fuel { p with pointer := p.pointer + 3 })) ∧
    (i.instruction = .JumpIfFalse →
      (c = 0 → 0 ≤ t → t < 2 ^ 64 →
        Program.runFuel (fuel + 1) p = Program.runFuel fuel { p with pointer := t.toNat }) ∧
      (c ≠ 0 →
        Program.runFuel (fuel + 1) p = Program.runFuel fuel { p with pointer := p.pointer + 3 })) := by
  have htp : p.take_two_params i = .ok (c, t) := by
    rw [Program.take_two_params, hc]
    dsimp only
    rw [ht]
  constructor
  · intro hj
    have hjs : i.jump_size = 0 := by
      rw [InstructionWithMode.jump_size, hj]
      rfl
    have hsz : i.size = 3 := by
      rw [InstructionWithMode.size, hj]
      rfl
    constructor
    · intro hc0 h0 h1
      rw [Program.runFuel, Program.next_of_decode p i hlt hdec]
      dsimp only
      rw [hj]
      dsimp only
      rw [htp]
      dsimp only
      rw [if_pos hc0, hjs, usizeOfInt_eq_toNat t h0 h1, Nat.add_zero]
    · intro hc0
      rw [Program.runFuel, Program.next_of_decode p i hlt hdec]
      dsimp only
      rw [hj]
      dsimp only
      rw [htp]
      dsimp only
      rw [if_neg (by simp [hc0]), hjs, hsz, Nat.add_zero]
  · intro hj
    have hjs : i.jump_size = 0 := by
      rw [InstructionWithMode.jump_size, hj]
      rfl
    have hsz : i.size = 3 := by
      rw [InstructionWithMode.size, hj]
      rfl
    constructor
    · intro hc0 h0 h1
      rw [Program.runFuel, Program.next_of_decode p i hlt hdec]
      dsimp only
      rw [hj]
      dsimp only
      rw [htp]
      dsimp only
      rw [if_pos hc0, hjs, usizeOfInt_eq_toNat t h0 h1, Nat.add_zero]
    · intro hc0
      rw [Program.runFuel, Program.next_of_decode p i hlt hdec]
      dsimp only
      rw [hj]
      dsimp only
      rw [htp]
      dsimp only
      rw [if_neg hc0, hjs, hsz, Nat.add_zero]

/-- Witness for C6: `[1105, 1, 3, 99]` jumps to the immediate target 3
because the immediate condition 1 is non-zero. -/
theorem jump_step_witness :
    Program.runFuel 5 (Program.new [1105, 1, 3, 99]) =
      Program.runFuel 4
        { opcodes := [1105, 1, 3, 99], pointer := (3 : Int).toNat, inputs := [], relative_base := 0 } := by
  have h := ((jump_step 4 (Program.new [1105, 1, 3, 99])
    ⟨.JumpIfTrue, .Immediate, .Immediate, .Position⟩ 1 3
    (by decide) rfl rfl rfl).1 rfl).1 (by decide) (by decide) (by norm_num)
  simpa [Program.new] using h

/-- C7 (amended): a `run` call reports Halt only when either a Halt opcode
(99) is reached — executed directly, or peeked right after an Output; in both
cases the final pointer rests on a cell that decodes to Halt — or when the
instruction pointer has moved to or past the end of loaded memory, in which
case the result is `Halt(None)` without any Halt opcode being involved. -/
theorem run_halt_only_at_exit_or_past_end (fuel : Nat) (p q : Program) (o : Option Int)
    (h : Program.runFuel fuel p = .ok (.Halt o, q)) :
    (q.opcodes.length ≤ q.pointer ∧ o = none) ∨
    (∃ i, InstructionWithMode.from_intcode (q.opcodes.getD q.pointer 0) = .ok i ∧
      i.instruction = .Exit) := by
  induction fuel generalizing p with
  | zero => exact absurd h (by simp [Program.runFuel])
  | succ fuel ih =>
    rw [Program.runFuel] at h
    cases hn : p.next with
    | error e =>
      rw [hn] at h
      exact absurd h (by simp)
    | ok oi =>
      rw [hn] at h
      cases oi with
      | none =>
        dsimp only at h
        simp only [Except.ok.injEq, Prod.mk.injEq, ProgramState.Halt.injEq] at h
        obtain ⟨ho, hpq⟩ := h
        subst hpq
        exact Or.inl ⟨Program.next_eq_none_iff p hn, ho.symm⟩
      | some instruction =>
        dsimp only at h
        cases hkind : instruction.instruction
        case Add =>
          rw [hkind] at h
          dsimp only at h
          cases htp : p.take_three_params instruction with
          | error e =>
            rw [htp] at h
            exact absurd h (by simp)
          | ok triple =>
            obtain ⟨l, r, out⟩ := triple
            rw [htp] at h
            dsimp only at h
            cases hset : p.set out (wrapI64 (l + r)) with
            | error e =>
              rw [hset] at h
              exact absurd h (by simp)
            | ok q1 =>
              rw [hset] at h
              dsimp only at h
              exact ih _ h
        case Mul =>
          rw [hkind] at h
          dsimp only at h
          cases htp : p.take_three_params instruction with
          | error e =>
            rw [htp] at h
            exact absurd h (by simp)
          | ok triple =>
            obtain ⟨l, r, out⟩ := triple
            rw [htp] at h
            dsimp only at h
            cases hset : p.set out (wrapI64 (l * r)) with
            | error e =>
              rw [hset] at h
              exact absurd h (by simp)
            | ok q1 =>
              rw [hset] at h
              dsimp only at h
              exact ih _ h
        case Input =>
          rw [hkind] at h
          dsimp only at h
          cases hop : p.take_one_param instruction with
          | error e =>
            rw [hop] at h
            exact absurd h (by simp)
          | ok save_to =>
            rw [hop] at h
            dsimp only at h
            cases hinp : p.inputs with
            | nil =>
              rw [hinp] at h
              exact absurd h (by simp)
            | cons v rest =>
              rw [hinp] at h
              dsimp only at h
              cases hset : Program.set { p with inputs := rest } save_to v with
              | error e =>
                rw [hset] at h
                exact absurd h (by simp)
              | ok q1 =>
                rw [hset] at h
                dsimp only at h
                exact ih _ h
        case Output =>
          rw [hkind] at h
          dsimp only at h
          cases hv : instruction.mode_one.value_at (p.pointer + 1) p with
          | error e =>
            rw [hv] at h
            exact absurd h (by simp)
          | ok value =>
            rw [hv] at h
            dsimp only at h
            cases hn2 : Program.next { p with pointer := p.pointer + instruction.jump_size } with
            | error e =>
              rw [hn2] at h
              exact absurd h (by simp)
            | ok oi2 =>
              rw [hn2] at h
              cases oi2 with
              | none =>
                dsimp only at h
                exact absurd h (by simp)
              | some peeked =>
                dsimp only at h
                cases hpk : peeked.instruction <;> rw [hpk] at h <;> dsimp only at h
                case Exit =>
                  simp only [Except.ok.injEq, Prod.mk.injEq, ProgramState.Halt.injEq] at h
                  obtain ⟨ho, hpq⟩ := h
                  subst hpq
                  exact Or.inr ⟨peeked, (Program.next_eq_some_inv _ peeked hn2).2, hpk⟩
                all_goals exact absurd h (by simp)
        case JumpIfTrue =>
          rw [hkind] at h
          dsimp only at h
          cases htp : p.take_two_params instruction with
          | error e =>
            rw [htp] at h
            exact absurd h (by simp)
          | ok pair =>
            obtain ⟨c, t⟩ := pair
            rw [htp] at h
            dsimp only at h
            by_cases hc0 : c ≠ 0
            · rw [if_pos hc0] at h
              exact ih _ h
            · rw [if_neg hc0] at h
              exact ih _ h
        case JumpIfFalse =>
          rw [hkind] at h
          dsimp only at h
          cases htp : p.take_two_params instruction with
          | error e =>
            rw [htp] at h
            exact absurd h (by simp)
          | ok pair =>
            obtain ⟨c, t⟩ := pair
            rw [htp] at h
            dsimp only at h
            by_cases hc0 : c = 0
            · rw [if_pos hc0] at h
              exact ih _ h
            · rw [if_neg hc0] at h
              exact ih _ h
        case LessThan =>
          rw [hkind] at h
          dsimp only at h
          cases htp : p.take_three_params instruction with
          | error e =>
            rw [htp] at h
            exact absurd h (by simp)
          | ok triple =>
            obtain ⟨f, s, out⟩ := triple
            rw [htp] at h
            dsimp only at h
            cases hset : p.set out (if f < s then 1 else 0) with
            | error e =>
              rw [hset] at h
              exact absurd h (by simp)
            | ok q1 =>
              rw [hset] at h
              dsimp only at h
              exact ih _ h
        case Equal =>
          rw [hkind] at h
          dsimp only at h
          cases htp : p.take_three_params instruction with
          | error e =>
            rw [htp] at h
            exact absurd h (by simp)
          | ok triple =>
            obtain ⟨f, s, out⟩ := triple
            rw [htp] at h
            dsimp only at h
            cases hset : p.set out (if f = s then 1 else 0) with
            | error e =>
              rw [hset] at h
              exact absurd h (by simp)
            | ok q1 =>
              rw [hset] at h
              dsimp only at h
              exact ih _ h
        case SetRelativeBase =>
          rw [hkind] at h
          dsimp only at h
          cases hv : instruction.mode_one.value_at (p.pointer + 1) p with
          | error e =>
            rw [hv] at h
            exact absurd h (by simp)
          | ok value =>
            rw [hv] at h
            dsimp only at h
            exact ih _ h
        case Exit =>
          rw [hkind] at h
          dsimp only at h
          simp only [Except.ok.injEq, Prod.mk.injEq, ProgramState.Halt.injEq] at h
          obtain ⟨ho, hpq⟩ := h
          subst hpq
          exact Or.inr ⟨instruction, (Program.next_eq_some_inv p instruction hn).2, hkind⟩

/-- Witness for C7 (amended): `[99]` halts with the final pointer resting on
a cell that decodes to Halt. -/
theorem run_halt_only_witness :
    ((Program.new [99]).opcodes.length ≤ (Program.new [99]).pointer ∧ (none : Option Int) = none) ∨
    (∃ i, InstructionWithMode.from_intcode
        ((Program.new [99]).opcodes.getD (Program.new [99]).pointer 0) = .ok i ∧
      i.instruction = .Exit) :=
  run_halt_only_at_exit_or_past_end 1 (Program.new [99]) (Program.new [99]) none rfl

/-- C5 (amended): for any cell `0 ≤ c < 100000`, a successful decode yields
the opcode `c mod 100` and parameter modes equal to the hundreds, thousands
and ten-thousands decimal digits of `c`, and an opcode outside
`{1,…,9,99}` is a fatal decode error surfaced immediately. (Beyond
`c ≥ 100000` the digit rule fails: the third mode is taken from
`c / 10000` without reduction mod 10, so decoding panics even when the
ten-thousands digit itself is 0, 1 or 2.) -/
theorem decode_digit_rule (c : Int) (h0 : 0 ≤ c) (h1 : c < 100000) :
    (∀ i, InstructionWithMode.from_intcode c = .ok i →
      i.instruction.opcode = c % 100 ∧
      i.mode_one.digit = c / 100 % 10 ∧
      i.mode_two.digit = c / 1000 % 10 ∧
      i.mode_three.digit = c / 10000 % 10) ∧
    (c % 100 ∉ ([1, 2, 3, 4, 5, 6, 7, 8, 9, 99] : List Int) →
      InstructionWithMode.from_intcode c = .error (.badOpcode (c % 100))) := by
  have e0 : c.tmod 100 = c % 100 := Int.tmod_eq_emod h0 (by norm_num)
  have e1 : (c.tdiv 100).tmod 10 = c / 100 % 10 := by
    rw [Int.tdiv_eq_ediv h0 (by norm_num)]
    exact Int.tmod_eq_emod (Int.ediv_nonneg h0 (by norm_num)) (by norm_num)
  have e2 : (c.tdiv 1000).tmod 10 = c / 1000 % 10 := by
    rw [Int.tdiv_eq_ediv h0 (by norm_num)]
    exact Int.tmod_eq_emod (Int.ediv_nonneg h0 (by norm_num)) (by norm_num)
  have e3 : c.tdiv 10000 = c / 10000 % 10 := by
    rw [Int.tdiv_eq_ediv h0 (by norm_num)]
    omega
  constructor
  · intro i hi
    rw [InstructionWithMode.from_intcode, e0, e1, e2, e3] at hi
    cases hop : Instruction.from_opcode (c % 100) with
    | error e =>
      rw [hop] at hi
      simp at hi
    | ok ins =>
      rw [hop] at hi
      dsimp only at hi
      cases hm1 : ParamMode.from_digit (c / 100 % 10) with
      | error e =>
        rw [hm1] at hi
        simp at hi
      | ok m1 =>
        rw [hm1] at hi
        dsimp only at hi
        cases hm2 : ParamMode.from_digit (c / 1000 % 10) with
        | error e =>
          rw [hm2] at hi
          simp at hi
        | ok m2 =>
          rw [hm2] at hi
          dsimp only at hi
          cases hm3 : ParamMode.from_digit (c / 10000 % 10) with
          | error e =>
            rw [hm3] at hi
            simp at hi
          | ok m3 =>
            rw [hm3] at hi
            dsimp only at hi
            injection hi with hi
            subst hi
            exact ⟨Instruction.from_opcode_ok _ _ hop, ParamMode.from_digit_ok _ _ hm1,
              ParamMode.from_digit_ok _ _ hm2, ParamMode.from_digit_ok _ _ hm3⟩
  · intro hmem
    rw [InstructionWithMode.from_intcode, e0, Instruction.from_opcode_invalid _ hmem]

/-- Witness for C5 (amended): the cell 1002 decodes to opcode 2 (Mul) with
modes Position, Immediate, Position, matching its decimal digits. -/
theorem decode_digit_rule_witness :
    (InstructionWithMode.mk .Mul .Position .Immediate .Position).instruction.opcode
        = (1002 : Int) % 100 ∧
    (InstructionWithMode.mk .Mul .Position .Immediate .Position).mode_one.digit
        = (1002 : Int) / 100 % 10 ∧
    (InstructionWithMode.mk .Mul .Position .Immediate .Position).mode_two.digit
        = (1002 : Int) / 1000 % 10 ∧
    (InstructionWithMode.mk .Mul .Position .Immediate .Position).mode_three.digit
        = (1002 : Int) / 10000 % 10 :=
  (decode_digit_rule 1002 (by norm_num) (by norm_num)).1
    ⟨.Mul, .Position, .Immediate, .Position⟩ rfl

/-- C8 (amended): a Relative-mode resolution whose base-plus-offset is
negative is not rejected: the `as usize` cast wraps it modulo 2^64, and when
the wrapped address lies at or beyond the current memory length the
subsequent read silently returns 0 — no error is raised and no memory is
grown. (Write targets wrap through the same cast rather than producing a
descriptive negative-address error.) -/
theorem negative_relative_resolution_wraps (p : Program) (pos : Nat) (c s : Int)
    (hread : p.read pos = .ok c)
    (hs : s = i64OfUsize p.relative_base + c)
    (hneg : s < 0) (hlo : -(2 ^ 64 : Int) ≤ s)
    (hne : p.opcodes.length ≠ 0)
    (hlen : (p.opcodes.length : Int) ≤ s + 2 ^ 64) :
    ParamMode.Relative.position pos p = .ok (s + 2 ^ 64).toNat ∧
    ParamMode.Relative.value_at pos p = .ok 0 := by
  have hpos : ParamMode.Relative.position pos p = .ok (s + 2 ^ 64).toNat := by
    rw [ParamMode.position, hread]
    dsimp only
    rw [usizeOfInt_wrapI64, ← hs]
    unfold usizeOfInt
    congr 1
    omega
  refine ⟨hpos, ?_⟩
  rw [ParamMode.value_at, hpos]
  dsimp only
  apply Program.read_ge _ _ hne
  omega

/-- Witness for C8 (amended): in `[204, -1, 99]` the Relative resolution of
the offset at address 1 with base 0 is `-1`; it wraps to `2^64 - 1` and the
read there returns 0. -/
theorem negative_relative_resolution_wraps_witness :
    ParamMode.Relative.position 1 (Program.new [204, -1, 99]) = .ok ((-1 : Int) + 2 ^ 64).toNat ∧
    ParamMode.Relative.value_at 1 (Program.new [204, -1, 99]) = .ok 0 :=
  negative_relative_resolution_wraps (Program.new [204, -1, 99]) 1 (-1) (-1) rfl
    (by norm_num [i64OfUsize, Program.new]) (by norm_num) (by norm_num)
    (by norm_num [Program.new]) (by norm_num [Program.new])
